import Mathlib

/-!
Shallow embedding of `src/lib.rs` of the `generational_index` repository:
a generational handle allocator (`Allocator`) and a generation-checked
sparse container (`Arena`). Rust `Vec` fields become Lean `List`s; the
`free` vector is used by the code purely as a stack (push/pop at the back),
modelled here with push/pop at the list head. Rust's panicking indexing
`entries[i]` is modelled by an explicit out-of-range branch marked as the
panic branch; machine integers are `Nat` (no arithmetic here overflows a
`usize` in any execution the claims quantify over, and the code does only
increments).
-/

/-! ## Helper lemmas -/

/-- `Index` from `src/lib.rs`: `{ value: usize, generation: usize }`. -/
structure Index where
  value : Nat
  generation : Nat
deriving DecidableEq

/-- `Index::new`. -/
def Index.new (value generation : Nat) : Index :=
  { value := value, generation := generation }

/-- `AllocatorEntry` from `src/lib.rs`: `{ is_live: bool, generation: usize }`. -/
structure AllocatorEntry where
  is_live : Bool
  generation : Nat
deriving DecidableEq

/-- `AllocatorEntry::new`: `{ is_live: true, generation: 0 }`. -/
def AllocatorEntry.new : AllocatorEntry :=
  { is_live := true, generation := 0 }

/-- `Allocator` from `src/lib.rs`: entries vector plus free-list. -/
structure Allocator where
  entries : List AllocatorEntry
  free : List Nat
deriving DecidableEq

/-- `Allocator::new` / `Allocator::default`: both vectors empty. -/
def Allocator.new : Allocator :=
  { entries := [], free := [] }

/-- Rust in-place field update `v[n].f = x`, modelled as a pure list update;
out of range it is the identity (the callers in `lib.rs` only reach it in
bounds, which the invariant theorems below establish). -/
def listModify {α : Type} (l : List α) (n : Nat) (f : α → α) : List α :=
  match l[n]? with
  | some x => l.set n (f x)
  | none => l

/-- `Allocator::allocate`. `self.free.pop()` on the stack is the head pattern
match; the `Some(i)` branch reads `self.entries[i]`, whose out-of-range case
(where Rust panics) is the explicit `none` branch below, proved unreachable
from `Allocator::new`. -/
def Allocator.allocate (a : Allocator) : Index × Allocator :=
  match a.free with
  | [] =>
      let index := a.entries.length
      let entries' := a.entries ++ [AllocatorEntry.new]
      (Index.new index 0, { entries := entries', free := [] })
  | i :: rest =>
      match a.entries[i]? with
      | some e =>
          let g := e.generation + 1
          (Index.new i g,
           { entries := a.entries.set i { is_live := true, generation := g },
             free := rest })
      | none =>
          -- Rust panic branch: `self.entries[i]` with `i` out of range.
          (Index.new i 0, { entries := a.entries, free := rest })

/-- `Allocator::is_live`: `entries.get(index.value).map(|v| v.is_live).unwrap_or_default()`. -/
def Allocator.is_live (a : Allocator) (index : Index) : Bool :=
  ((a.entries[index.value]?).map AllocatorEntry.is_live).getD false

/-- `Allocator::deallocate`: guarded by `is_live`, sets the slot dead and
pushes the slot number onto the free-list. -/
def Allocator.deallocate (a : Allocator) (index : Index) : Allocator :=
  if a.is_live index then
    { entries := listModify a.entries index.value (fun e => { e with is_live := false }),
      free := index.value :: a.free }
  else a

/-- `ArrayEntry<E>` from `src/lib.rs`: `{ value: E, generation: usize }`. -/
structure ArrayEntry (E : Type) where
  value : E
  generation : Nat
deriving DecidableEq

/-- `ArrayEntry::value`: the stored value, only under matching generation. -/
def ArrayEntry.valueAt {E : Type} (e : ArrayEntry E) (index : Index) : Option E :=
  if e.generation = index.generation then some e.value else none

/-- `ArrayEntry::value_mut`: same generation guard as `value`. -/
def ArrayEntry.valueMutAt {E : Type} (e : ArrayEntry E) (index : Index) : Option E :=
  if e.generation = index.generation then some e.value else none

/-- `Arena<E>` from `src/lib.rs`: a vector of optional entries. -/
structure Arena (E : Type) where
  values : List (Option (ArrayEntry E))
deriving DecidableEq

/-- `Arena::new`: empty backing vector. -/
def Arena.new {E : Type} : Arena E :=
  { values := [] }

/-- `Arena::len`. -/
def Arena.len {E : Type} (a : Arena E) : Nat :=
  a.values.length

/-- `Arena::is_empty`: `self.len() == 0`. -/
def Arena.isEmptyArena {E : Type} (a : Arena E) : Bool :=
  a.len == 0

/-- `Arena::set`: the `while self.len() <= index.value { push None }` loop
pads the vector with `None` up to length `index.value + 1` (truncated `Nat`
subtraction makes the padding empty when already long enough), then the slot
is overwritten unconditionally. -/
def Arena.set {E : Type} (a : Arena E) (index : Index) (elem : E) : Arena E :=
  let grown := a.values ++ List.replicate (index.value + 1 - a.values.length) none
  { values := grown.set index.value (some { value := elem, generation := index.generation }) }

/-- `Arena::get`: `values.get(v).and_then(as_ref).and_then(value(index))`. -/
def Arena.get {E : Type} (a : Arena E) (index : Index) : Option E :=
  ((a.values[index.value]?).bind id).bind (fun e => e.valueAt index)

/-- `Arena::get_mut`: same chain through `value_mut`; in this pure embedding
it yields the value the mutable reference would point at. -/
def Arena.getMut {E : Type} (a : Arena E) (index : Index) : Option E :=
  ((a.values[index.value]?).bind id).bind (fun e => e.valueMutAt index)

/-- `Option::unwrap`, with the panic modelled as `none`. -/
def unwrapOrPanic {α : Type} : Option α → Option α
  | some x => some x
  | none => none

/-- `impl std::ops::Index for Arena`: `self.get(index).unwrap()`; `none`
is the panic outcome. -/
def Arena.indexOp {E : Type} (a : Arena E) (index : Index) : Option E :=
  unwrapOrPanic (a.get index)

/-- `impl std::ops::IndexMut for Arena`: `self.get_mut(index).unwrap()`. -/
def Arena.indexMutOp {E : Type} (a : Arena E) (index : Index) : Option E :=
  unwrapOrPanic (a.getMut index)

/-- Writing through a reference obtained from `get_mut` / `IndexMut`: the
stored value at the slot is replaced (by `f`) exactly when `get_mut`
succeeds; the vector's length never changes. -/
def Arena.writeVia {E : Type} (a : Arena E) (index : Index) (f : E → E) : Arena E :=
  match a.values[index.value]? with
  | some (some e) =>
      if e.generation = index.generation then
        { values := a.values.set index.value
            (some { value := f e.value, generation := e.generation }) }
      else a
  | _ => a

/-- Modelled from the spec: `insertIfAbsent(index, value)` (spec section 4.3).
`src/lib.rs` exposes only the unconditional-overwrite store (`Arena::set`);
the insert-if-absent variant is absent from the source, so it is taken from
the spec's words: grow the backing storage (filling new slots with empty) up
to `index.slot`; if that slot is currently empty, store `value` tagged with
`index.generation`; if occupied, leave it unchanged. -/
def Arena.insertIfAbsent {E : Type} (a : Arena E) (index : Index) (elem : E) : Arena E :=
  match (a.values ++ List.replicate (index.value + 1 - a.values.length) none)[index.value]? with
  | some none =>
      { values := (a.values ++ List.replicate (index.value + 1 - a.values.length) none).set
          index.value (some { value := elem, generation := index.generation }) }
  | _ => { values := a.values ++ List.replicate (index.value + 1 - a.values.length) none }

/-- One state-changing operation of the Arena's public interface. `get`,
`len` and `is_empty` take `&self` and cannot change the state; `set` and
writes through `get_mut` / `IndexMut` are the mutators. -/
inductive ArenaOp (E : Type) where
  | setOp (index : Index) (elem : E)
  | writeOp (index : Index) (f : E → E)

/-- Apply one public mutating operation. -/
def Arena.applyOp {E : Type} (a : Arena E) : ArenaOp E → Arena E
  | ArenaOp.setOp index elem => a.set index elem
  | ArenaOp.writeOp index f => a.writeVia index f

/-- Apply a sequence of public mutating operations. -/
def Arena.applyOps {E : Type} (a : Arena E) (ops : List (ArenaOp E)) : Arena E :=
  ops.foldl Arena.applyOp a

/-- The slot number `i` exists in the entries vector and is marked dead. -/
def Allocator.slotDead (a : Allocator) (i : Nat) : Bool :=
  match a.entries[i]? with
  | some e => !e.is_live
  | none => false

/-- Free-list invariant: each listed slot exists, is dead, and is listed once. -/
def Allocator.freeInv (a : Allocator) : Prop :=
  a.free.Nodup ∧ ∀ i ∈ a.free, a.slotDead i = true

/-- A handle is currently valid: its slot is live and its generation equals
the slot's stored generation (the spec's notion of a non-stale live handle). -/
def Allocator.liveHandle (a : Allocator) (h : Index) : Bool :=
  a.is_live h && ((a.entries[h.value]?).map AllocatorEntry.generation == some h.generation)

/-- Allocator states reachable from `Allocator::new` by the public interface. -/
inductive Reached : Allocator → Prop where
  | init : Reached Allocator.new
  | stepAllocate {a : Allocator} : Reached a → Reached (a.allocate).2
  | stepDeallocate {a : Allocator} (i : Index) : Reached a → Reached (a.deallocate i)

/-- The free-list property the C10 claim states: in-range, dead, no duplicates. -/
def Allocator.freeListOk (a : Allocator) : Prop :=
  a.free.Nodup ∧ (∀ i ∈ a.free, i < a.entries.length) ∧
  (∀ i ∈ a.free, ∃ e, a.entries[i]? = some e ∧ e.is_live = false)

/-- Sample state: one allocated-then-deallocated slot (reachable from new). -/
def deadSlotState : Allocator := { entries := [{ is_live := false, generation := 0 }], free := [0] }

/-- Sample state: slot 0 recycled once and live at generation 1 (reachable from new). -/
def liveGen1State : Allocator := { entries := [{ is_live := true, generation := 1 }], free := [] }

lemma lt_length_of_getElem?_some {α : Type} {l : List α} {n : Nat} {x : α}
    (h : l[n]? = some x) : n < l.length := by
  by_contra hh
  push_neg at hh
  rw [List.getElem?_eq_none hh] at h
  exact Option.noConfusion h

lemma listModify_getElem?_self {α : Type} {l : List α} {n : Nat} {x : α} (f : α → α)
    (h : l[n]? = some x) : (listModify l n f)[n]? = some (f x) := by
  unfold listModify
  rw [h]
  exact List.getElem?_set_eq_of_lt (f x) (lt_length_of_getElem?_some h)

lemma listModify_getElem?_ne {α : Type} {l : List α} {n m : Nat} (f : α → α)
    (h : n ≠ m) : (listModify l n f)[m]? = l[m]? := by
  unfold listModify
  cases hx : l[n]? with
  | none => rfl
  | some x => exact List.getElem?_set_ne h

lemma listModify_length {α : Type} (l : List α) (n : Nat) (f : α → α) :
    (listModify l n f).length = l.length := by
  unfold listModify
  cases hx : l[n]? with
  | none => rfl
  | some x => exact List.length_set l n (f x)

lemma is_live_iff {a : Allocator} {h : Index} :
    a.is_live h = true ↔ ∃ e, a.entries[h.value]? = some e ∧ e.is_live = true := by
  unfold Allocator.is_live
  cases hx : a.entries[h.value]? <;> simp [hx]

lemma is_live_value_only (a : Allocator) (v g g' : Nat) :
    a.is_live (Index.new v g) = a.is_live (Index.new v g') := rfl

lemma is_live_lt {a : Allocator} {h : Index} (hl : a.is_live h = true) :
    h.value < a.entries.length := by
  obtain ⟨e, he, _⟩ := is_live_iff.mp hl
  exact lt_length_of_getElem?_some he

lemma is_live_false_of_ge {a : Allocator} {h : Index}
    (hge : a.entries.length ≤ h.value) : a.is_live h = false := by
  unfold Allocator.is_live
  rw [List.getElem?_eq_none hge]
  rfl

lemma deallocate_of_live {a : Allocator} {i : Index} (hl : a.is_live i = true) :
    a.deallocate i =
      { entries := listModify a.entries i.value (fun e => { e with is_live := false }),
        free := i.value :: a.free } := by
  unfold Allocator.deallocate
  rw [hl]
  rfl

lemma deallocate_of_dead {a : Allocator} {i : Index} (hl : a.is_live i = false) :
    a.deallocate i = a := by
  unfold Allocator.deallocate
  rw [hl]
  rfl

lemma slotDead_iff {a : Allocator} {i : Nat} :
    a.slotDead i = true ↔ ∃ e, a.entries[i]? = some e ∧ e.is_live = false := by
  unfold Allocator.slotDead
  cases hx : a.entries[i]? <;> simp [hx]

lemma grow_length {α : Type} (l : List (Option α)) (n : Nat) :
    (l ++ List.replicate (n + 1 - l.length) (none : Option α)).length = max l.length (n + 1) := by
  rw [List.length_append, List.length_replicate]
  omega

lemma grow_getElem?_lt {α : Type} {l : List (Option α)} {n m : Nat} (h : m < l.length) :
    (l ++ List.replicate (n + 1 - l.length) (none : Option α))[m]? = l[m]? :=
  List.getElem?_append_left h

lemma grow_getElem?_pad {α : Type} {l : List (Option α)} {n m : Nat}
    (h1 : l.length ≤ m) (h2 : m < n + 1) :
    (l ++ List.replicate (n + 1 - l.length) (none : Option α))[m]? = some none := by
  rw [List.getElem?_append_right h1, List.getElem?_replicate]
  simp only [if_pos (by omega : m - l.length < n + 1 - l.length)]

lemma getMut_eq_get {E : Type} (a : Arena E) (i : Index) : a.getMut i = a.get i := rfl

lemma arena_set_len {E : Type} (a : Arena E) (i : Index) (v : E) :
    (a.set i v).len = max a.len (i.value + 1) := by
  show ((a.values ++ List.replicate (i.value + 1 - a.values.length) none).set i.value
      (some { value := v, generation := i.generation })).length = _
  rw [List.length_set, grow_length]
  rfl

lemma arena_writeVia_len {E : Type} (a : Arena E) (i : Index) (f : E → E) :
    (a.writeVia i f).len = a.len := by
  unfold Arena.writeVia
  cases hx : a.values[i.value]? with
  | none => rfl
  | some o =>
    cases o with
    | none => rfl
    | some e =>
      by_cases hg : e.generation = i.generation
      · simp only [hg, if_pos rfl]
        show (a.values.set i.value _).length = a.values.length
        exact List.length_set _ _ _
      · simp only [if_neg hg]

lemma insertIfAbsent_of_empty {E : Type} {a : Arena E} {i : Index} (v : E)
    (h : (a.values ++ List.replicate (i.value + 1 - a.values.length)
        (none : Option (ArrayEntry E)))[i.value]? = some none) :
    a.insertIfAbsent i v = Arena.mk ((a.values ++ List.replicate
        (i.value + 1 - a.values.length) (none : Option (ArrayEntry E))).set i.value
        (some { value := v, generation := i.generation })) := by
  unfold Arena.insertIfAbsent
  rw [h]

lemma insertIfAbsent_of_occupied {E : Type} {a : Arena E} {i : Index} (v : E)
    (e : ArrayEntry E)
    (h : (a.values ++ List.replicate (i.value + 1 - a.values.length)
        (none : Option (ArrayEntry E)))[i.value]? = some (some e)) :
    a.insertIfAbsent i v = Arena.mk (a.values ++ List.replicate
        (i.value + 1 - a.values.length) (none : Option (ArrayEntry E))) := by
  unfold Arena.insertIfAbsent
  rw [h]

/-- C1: `Allocator.deallocate(index)` checks only the liveness flag of slot
`index.value`, never `index.generation`: the result is invariant under the
handle's generation; when the slot is live it is marked dead and the slot
number is pushed onto the free-list, otherwise the call is a no-op. In
particular, for any state in which a handle `E` is live on the same slot as
a (possibly stale) handle `D`, `deallocate D` marks the slot dead again and
`is_live E` then returns `false`. -/
theorem deallocate_ignores_generation (a : Allocator) (D E : Index)
    (hslot : D.value = E.value) (hlive : a.is_live E = true) :
    (∀ g, a.deallocate (Index.new D.value g) = a.deallocate D) ∧
    (a.deallocate D).free = D.value :: a.free ∧
    (a.deallocate D).is_live E = false ∧
    (∀ (b : Allocator) (i : Index), b.is_live i = false → b.deallocate i = b) := by
  have hDE : a.is_live D = a.is_live E := by
    unfold Allocator.is_live
    rw [hslot]
  have hD : a.is_live D = true := hDE.trans hlive
  obtain ⟨e, he, helive⟩ := is_live_iff.mp hlive
  have heD : a.entries[D.value]? = some e := by rw [hslot]; exact he
  refine ⟨?_, ?_, ?_, ?_⟩
  · intro g
    show a.deallocate { value := D.value, generation := g } = a.deallocate D
    unfold Allocator.deallocate Allocator.is_live
    rfl
  · rw [deallocate_of_live hD]
  · rw [deallocate_of_live hD]
    unfold Allocator.is_live
    have hmod : (listModify a.entries D.value (fun e => { e with is_live := false }))[E.value]? =
        some { e with is_live := false } := by
      rw [← hslot]
      exact listModify_getElem?_self _ heD
    rw [hmod]
    rfl
  · intro b i hdead
    exact deallocate_of_dead hdead

/-- C1 witness: allocate `D` on slot 0, deallocate it, allocate `E` on the
same slot; a second `deallocate D` through the stale handle kills `E`. -/
theorem deallocate_ignores_generation_witness :
    (Index.new 0 0).value = (Index.new 0 1).value ∧
    ({ entries := [{ is_live := true, generation := 1 }], free := [] } : Allocator).is_live
      (Index.new 0 1) = true ∧
    (({ entries := [{ is_live := true, generation := 1 }], free := [] } : Allocator).deallocate
      (Index.new 0 0)).is_live (Index.new 0 1) = false := by
  refine ⟨by decide, by decide, ?_⟩
  exact (deallocate_ignores_generation
    { entries := [{ is_live := true, generation := 1 }], free := [] }
    (Index.new 0 0) (Index.new 0 1) (by decide) (by decide)).2.2.1

/-- C2: `Arena.get h` returns `some v` exactly when slot `h.value` is inside
the backing storage, occupied, and the occupying entry's stored generation
equals `h.generation` with `v` the stored value; in every other case it
returns `none`, and `get_mut` agrees with `get`. -/
theorem get_characterization {E : Type} (a : Arena E) (i : Index) (v : E) :
    (a.get i = some v ↔ ∃ e, a.values[i.value]? = some (some e) ∧
        e.generation = i.generation ∧ e.value = v) ∧
    a.getMut i = a.get i := by
  refine ⟨?_, rfl⟩
  unfold Arena.get ArrayEntry.valueAt
  cases hx : a.values[i.value]? with
  | none => simp
  | some o =>
    cases o with
    | none => simp
    | some e =>
      by_cases hg : e.generation = i.generation
      · simp [hx, hg]
      · simp [hx, hg]

/-- C6: `Arena.set h v` grows the backing storage with empty slots until slot
`h.value` exists, then unconditionally replaces that slot's content with an
occupied entry holding `v` tagged with `h.generation` (whatever was there
before, of any generation); afterwards `get h` returns `v`; every other
preexisting slot is untouched and the padding slots are empty. -/
theorem set_characterization {E : Type} (a : Arena E) (i : Index) (v : E) :
    (a.set i v).values[i.value]? = some (some { value := v, generation := i.generation }) ∧
    (a.set i v).get i = some v ∧
    (a.set i v).len = max a.len (i.value + 1) ∧
    (∀ j, j < a.len → j ≠ i.value → (a.set i v).values[j]? = a.values[j]?) ∧
    (∀ j, a.len ≤ j → j < i.value → (a.set i v).values[j]? = some none) := by
  have hlen : (a.values ++ List.replicate (i.value + 1 - a.values.length)
      (none : Option (ArrayEntry E))).length = max a.values.length (i.value + 1) :=
    grow_length a.values i.value
  have hself : (a.set i v).values[i.value]? =
      some (some { value := v, generation := i.generation }) := by
    show ((a.values ++ List.replicate (i.value + 1 - a.values.length) none).set i.value
        (some { value := v, generation := i.generation }))[i.value]? = _
    exact List.getElem?_set_eq_of_lt _ (by rw [hlen]; omega)
  refine ⟨hself, ?_, arena_set_len a i v, ?_, ?_⟩
  · unfold Arena.get
    rw [hself]
    simp [ArrayEntry.valueAt]
  · intro j hj hne
    show ((a.values ++ List.replicate (i.value + 1 - a.values.length) none).set i.value
        (some { value := v, generation := i.generation }))[j]? = _
    rw [List.getElem?_set_ne (fun h => hne h.symm)]
    exact grow_getElem?_lt hj
  · intro j hj hji
    show ((a.values ++ List.replicate (i.value + 1 - a.values.length) none).set i.value
        (some { value := v, generation := i.generation }))[j]? = _
    rw [List.getElem?_set_ne (fun h => absurd h.symm (Nat.ne_of_lt hji))]
    exact grow_getElem?_pad hj (by omega)

/-- C6 witness: storing 7 at handle (2, 5) in an empty arena of naturals. -/
theorem set_characterization_witness :
    ((Arena.new (E := Nat)).set (Index.new 2 5)
        7).values[(Index.new 2 5).value]? =
      some (some { value := 7, generation := (Index.new 2 5).generation }) ∧
    ((Arena.new (E := Nat)).set (Index.new 2 5) 7).get (Index.new 2 5) = some 7 := by
  have h := set_characterization (Arena.new (E := Nat)) (Index.new 2 5) 7
  exact ⟨h.1, h.2.1⟩

/-- C7: the `Index`/`IndexMut` operators return exactly the value `get`/
`get_mut` return when that is `some`, and hit the panic path (modelled as
`none`) exactly when `get`/`get_mut` return `none`. -/
theorem index_op_characterization {E : Type} (a : Arena E) (i : Index) :
    (∀ v, a.indexOp i = some v ↔ a.get i = some v) ∧
    (a.indexOp i = none ↔ a.get i = none) ∧
    (∀ v, a.indexMutOp i = some v ↔ a.getMut i = some v) ∧
    (a.indexMutOp i = none ↔ a.getMut i = none) := by
  have hu : ∀ (o : Option E), unwrapOrPanic o = o := fun o => by cases o <;> rfl
  simp [Arena.indexOp, Arena.indexMutOp, hu]

/-- C5: no operation of the Arena's public interface ever shrinks `len`:
each single mutating operation (an unconditional store, or a write through
`get_mut` / `IndexMut`) leaves `len` greater than or equal to its previous
value, `set` raises it exactly to the high-water mark
`max len (slot + 1)`, and hence `len` never decreases across any sequence
of operations. -/
theorem arena_len_never_decreases {E : Type} (a : Arena E) :
    (∀ op : ArenaOp E, a.len ≤ (a.applyOp op).len) ∧
    (∀ (i : Index) (v : E), (a.set i v).len = max a.len (i.value + 1)) ∧
    (∀ ops : List (ArenaOp E), a.len ≤ (a.applyOps ops).len) := by
  have hop : ∀ (b : Arena E) (op : ArenaOp E), b.len ≤ (b.applyOp op).len := by
    intro b op
    cases op with
    | setOp i v =>
        show b.len ≤ (b.set i v).len
        rw [arena_set_len]
        omega
    | writeOp i f =>
        show b.len ≤ (b.writeVia i f).len
        rw [arena_writeVia_len]
  refine ⟨hop a, fun i v => arena_set_len a i v, ?_⟩
  intro ops
  induction ops generalizing a with
  | nil => exact Nat.le_refl _
  | cons op rest ih =>
      exact Nat.le_trans (hop a op) (ih (a.applyOp op))

/-- C8: `insertIfAbsent h v` grows the backing storage up to slot `h.value`,
stores `v` tagged `h.generation` only when that slot is currently empty
(or newly created by growth), leaves an occupied slot's stored entry
unchanged, and a repeated insertion at the same handle with a different
value changes nothing at all. -/
theorem insertIfAbsent_spec {E : Type} (a : Arena E) (i : Index) (v w : E) :
    (a.len ≤ (a.insertIfAbsent i v).len ∧ i.value < (a.insertIfAbsent i v).len) ∧
    ((a.values[i.value]? = some none ∨ a.len ≤ i.value) →
        (a.insertIfAbsent i v).values[i.value]? =
          some (some { value := v, generation := i.generation })) ∧
    (∀ e, a.values[i.value]? = some (some e) →
        (a.insertIfAbsent i v).values[i.value]? = some (some e)) ∧
    (a.insertIfAbsent i v).insertIfAbsent i w = a.insertIfAbsent i v := by
  have hlen : (a.values ++ List.replicate (i.value + 1 - a.values.length)
      (none : Option (ArrayEntry E))).length = max a.values.length (i.value + 1) :=
    grow_length a.values i.value
  -- the slot always exists after growing
  have hocc : ∃ o, (a.values ++ List.replicate (i.value + 1 - a.values.length)
      (none : Option (ArrayEntry E)))[i.value]? = some o := by
    cases hg : (a.values ++ List.replicate (i.value + 1 - a.values.length)
        (none : Option (ArrayEntry E)))[i.value]? with
    | none =>
        have := List.getElem?_eq_none_iff.mp hg
        rw [hlen] at this
        omega
    | some o => exact ⟨o, rfl⟩
  obtain ⟨o, ho⟩ := hocc
  have hres : (a.insertIfAbsent i v).len = max a.len (i.value + 1) ∧
      ∃ e, (a.insertIfAbsent i v).values[i.value]? = some (some e) := by
    cases o with
    | none =>
        rw [insertIfAbsent_of_empty v ho]
        constructor
        · show (_ : List _).length = _
          rw [List.length_set, hlen]
          rfl
        · exact ⟨_, List.getElem?_set_eq_of_lt _ (by rw [hlen]; omega)⟩
    | some e =>
        rw [insertIfAbsent_of_occupied v e ho]
        exact ⟨hlen, ⟨e, ho⟩⟩
  refine ⟨⟨by rw [hres.1]; omega, by rw [hres.1]; omega⟩, ?_, ?_, ?_⟩
  · intro hemp
    have hnone : (a.values ++ List.replicate (i.value + 1 - a.values.length)
        (none : Option (ArrayEntry E)))[i.value]? = some none := by
      rcases hemp with hemp | hemp
      · rw [grow_getElem?_lt (lt_length_of_getElem?_some hemp)]
        exact hemp
      · exact grow_getElem?_pad hemp (by omega)
    rw [insertIfAbsent_of_empty v hnone]
    exact List.getElem?_set_eq_of_lt _ (by rw [hlen]; omega)
  · intro e he
    have hsome : (a.values ++ List.replicate (i.value + 1 - a.values.length)
        (none : Option (ArrayEntry E)))[i.value]? = some (some e) := by
      rw [grow_getElem?_lt (lt_length_of_getElem?_some he)]
      exact he
    rw [insertIfAbsent_of_occupied v e hsome]
    exact hsome
  · obtain ⟨e1, he1⟩ := hres.2
    have hpad0 : i.value + 1 - (a.insertIfAbsent i v).values.length = 0 := by
      have : i.value + 1 ≤ (a.insertIfAbsent i v).len := by rw [hres.1]; omega
      exact Nat.sub_eq_zero_of_le this
    have happ : (a.insertIfAbsent i v).values ++ List.replicate
        (i.value + 1 - (a.insertIfAbsent i v).values.length)
        (none : Option (ArrayEntry E)) = (a.insertIfAbsent i v).values := by
      rw [show (i.value + 1 - (a.insertIfAbsent i v).values.length) = 0 from hpad0]
      simp
    have he1' : ((a.insertIfAbsent i v).values ++ List.replicate
        (i.value + 1 - (a.insertIfAbsent i v).values.length)
        (none : Option (ArrayEntry E)))[i.value]? = some (some e1) := by
      rw [happ]
      exact he1
    rw [insertIfAbsent_of_occupied w e1 he1']
    rw [happ]

/-- C8 witness: inserting 3 at handle (1, 4) into an empty arena stores it;
re-inserting 9 at the same handle changes nothing. -/
theorem insertIfAbsent_spec_witness :
    (Arena.new (E := Nat)).len ≤ ((Arena.new (E := Nat)).insertIfAbsent (Index.new 1 4) 3).len ∧
    ((Arena.new (E := Nat)).insertIfAbsent (Index.new 1 4) 3).values[(Index.new 1 4).value]? =
      some (some { value := 3, generation := (Index.new 1 4).generation }) ∧
    ((Arena.new (E := Nat)).insertIfAbsent (Index.new 1 4) 3).insertIfAbsent (Index.new 1 4) 9 =
      (Arena.new (E := Nat)).insertIfAbsent (Index.new 1 4) 3 := by
  have h := insertIfAbsent_spec (Arena.new (E := Nat)) (Index.new 1 4) 3 9
  exact ⟨h.1.1, h.2.1 (Or.inr (by decide)), h.2.2.2⟩

lemma freeInv_new : Allocator.new.freeInv :=
  ⟨List.nodup_nil, fun i hi => absurd hi (List.not_mem_nil i)⟩

lemma freeInv_allocate : ∀ (a : Allocator), a.freeInv → (a.allocate).2.freeInv := by
  rintro ⟨entries, free⟩ ⟨hnd, hdead⟩
  cases free with
  | nil =>
      refine ⟨List.nodup_nil, fun i hi => absurd hi (List.not_mem_nil i)⟩
  | cons i rest =>
      have hnd' : rest.Nodup := (List.nodup_cons.mp hnd).2
      have hnotmem : i ∉ rest := (List.nodup_cons.mp hnd).1
      cases hx : entries[i]? with
      | none =>
          have hred : (Allocator.allocate ⟨entries, i :: rest⟩).2 =
              ⟨entries, rest⟩ := by
            simp [Allocator.allocate, hx]
          rw [hred]
          refine ⟨hnd', fun j hj => ?_⟩
          exact hdead j (List.mem_cons_of_mem i hj)
      | some e =>
          have hred : (Allocator.allocate ⟨entries, i :: rest⟩).2 =
              ⟨entries.set i { is_live := true, generation := e.generation + 1 }, rest⟩ := by
            simp [Allocator.allocate, hx]
          rw [hred]
          refine ⟨hnd', fun j hj => ?_⟩
          have hji : j ≠ i := fun h => hnotmem (h ▸ hj)
          have hold := hdead j (List.mem_cons_of_mem i hj)
          obtain ⟨e', he', hdead'⟩ := slotDead_iff.mp hold
          apply slotDead_iff.mpr
          refine ⟨e', ?_, hdead'⟩
          show (entries.set i { is_live := true, generation := e.generation + 1 })[j]? = some e'
          rw [List.getElem?_set_ne (fun h => hji h.symm)]
          exact he'

lemma freeInv_deallocate : ∀ (a : Allocator) (i : Index), a.freeInv → (a.deallocate i).freeInv := by
  intro a i ⟨hnd, hdead⟩
  cases hl : a.is_live i with
  | false => rw [deallocate_of_dead hl]; exact ⟨hnd, hdead⟩
  | true =>
      obtain ⟨e, he, helive⟩ := is_live_iff.mp hl
      have hnotmem : i.value ∉ a.free := by
        intro hmem
        obtain ⟨e', he', hd'⟩ := slotDead_iff.mp (hdead i.value hmem)
        rw [he] at he'
        cases he'
        rw [helive] at hd'
        exact Bool.noConfusion hd'
      rw [deallocate_of_live hl]
      refine ⟨List.nodup_cons.mpr ⟨hnotmem, hnd⟩, ?_⟩
      intro j hj
      apply slotDead_iff.mpr
      rcases List.mem_cons.mp hj with rfl | hj'
      · refine ⟨{ e with is_live := false }, ?_, rfl⟩
        exact listModify_getElem?_self _ he
      · have hji : j ≠ i.value := fun h => hnotmem (h ▸ hj')
        obtain ⟨e', he', hd'⟩ := slotDead_iff.mp (hdead j hj')
        refine ⟨e', ?_, hd'⟩
        show (listModify a.entries i.value fun e => { e with is_live := false })[j]? = some e'
        rw [listModify_getElem?_ne _ (fun h => hji h.symm)]
        exact he'

lemma reached_freeInv {a : Allocator} (h : Reached a) : a.freeInv := by
  induction h with
  | init => exact freeInv_new
  | stepAllocate _ ih => exact freeInv_allocate _ ih
  | stepDeallocate i _ ih => exact freeInv_deallocate _ i ih

lemma freeInv_to_ok {a : Allocator} (h : a.freeInv) : a.freeListOk := by
  obtain ⟨hnd, hd⟩ := h
  refine ⟨hnd, fun i hi => ?_, fun i hi => ?_⟩
  · obtain ⟨e, he, _⟩ := slotDead_iff.mp (hd i hi)
    exact lt_length_of_getElem?_some he
  · exact slotDead_iff.mp (hd i hi)

lemma liveHandle_iff {a : Allocator} {h : Index} :
    a.liveHandle h = true ↔ ∃ e, a.entries[h.value]? = some e ∧
      e.is_live = true ∧ e.generation = h.generation := by
  unfold Allocator.liveHandle Allocator.is_live
  cases hx : a.entries[h.value]? <;> simp [hx]

/-- C10: in every reachable allocator state the free-list holds no
duplicates, every listed slot number is strictly below the length of the
entries sequence, and every listed slot is marked dead; the invariant is
preserved by both `allocate` and `deallocate`. -/
theorem free_list_invariant (a : Allocator) (h : Reached a) :
    a.freeListOk ∧ (a.allocate).2.freeListOk ∧ ∀ i : Index, (a.deallocate i).freeListOk :=
  ⟨freeInv_to_ok (reached_freeInv h),
   freeInv_to_ok (freeInv_allocate _ (reached_freeInv h)),
   fun i => freeInv_to_ok (freeInv_deallocate _ i (reached_freeInv h))⟩

lemma reached_deadSlotState : Reached deadSlotState :=
  Reached.stepDeallocate (Index.new 0 0) (Reached.stepAllocate Reached.init)

lemma reached_liveGen1State : Reached liveGen1State :=
  Reached.stepAllocate reached_deadSlotState

/-- C10 witness: the invariant evaluated on a reachable state with a
non-empty free-list. -/
theorem free_list_invariant_witness : deadSlotState.freeListOk :=
  (free_list_invariant _ reached_deadSlotState).1

/-- C9: on every reachable state, `allocate`, `deallocate` and `is_live`
are total and panic-free: `is_live` is `false` for any never-allocated
(out-of-range) slot, `deallocate` of a dead or out-of-range slot is a
no-op, the indexing guarded by `is_live` inside `deallocate` is in bounds
whenever the guard passes, and the slot popped from the free-list inside
`allocate` is always in bounds. -/
theorem allocator_total_no_panic (a : Allocator) (h : Reached a) :
    (∀ i : Index, a.entries.length ≤ i.value → a.is_live i = false) ∧
    (∀ i : Index, a.is_live i = false → a.deallocate i = a) ∧
    (∀ i : Index, a.is_live i = true → i.value < a.entries.length) ∧
    (∀ i rest, a.free = i :: rest → i < a.entries.length) := by
  refine ⟨fun i hi => is_live_false_of_ge hi, fun i hi => deallocate_of_dead hi,
    fun i hi => is_live_lt hi, fun i rest hf => ?_⟩
  have hinv := reached_freeInv h
  obtain ⟨e, he, _⟩ := slotDead_iff.mp
    (hinv.2 i (by rw [hf]; exact List.mem_cons_self i rest))
  exact lt_length_of_getElem?_some he

/-- C9 witness: on a reachable state, a never-allocated slot reads as not
live and the free-list head is in bounds. -/
theorem allocator_total_no_panic_witness :
    deadSlotState.is_live (Index.new 3 0) = false ∧
    (0 : Nat) < deadSlotState.entries.length := by
  have h := allocator_total_no_panic _ reached_deadSlotState
  exact ⟨h.1 (Index.new 3 0) (by decide), h.2.2.2 0 [] rfl⟩

/-- C3: `allocate` always succeeds: with a non-empty free-list it pops the
most recently recycled slot number, increments that slot's stored generation
by exactly one, marks it live, and returns `Index(slot, new_generation)`;
with an empty free-list it appends a fresh entry `{is_live := true,
generation := 0}` and returns `Index(new_slot, 0)`, so the first handle for
any slot number has generation 0. In every reachable state a popped slot
number indexes an existing entry, so the pop branch applies. -/
theorem allocate_characterization (a : Allocator) :
    (a.free = [] → a.allocate = (Index.new a.entries.length 0,
        { entries := a.entries ++ [AllocatorEntry.new], free := [] })) ∧
    (∀ i rest e, a.free = i :: rest → a.entries[i]? = some e →
        a.allocate = (Index.new i (e.generation + 1),
          { entries := a.entries.set i { is_live := true, generation := e.generation + 1 },
            free := rest })) ∧
    (Reached a → ∀ i rest, a.free = i :: rest → ∃ e, a.entries[i]? = some e) := by
  refine ⟨?_, ?_, ?_⟩
  · intro hf
    simp [Allocator.allocate, hf]
  · intro i rest e hf he
    simp [Allocator.allocate, hf, he]
  · intro hr i rest hf
    have hinv := reached_freeInv hr
    obtain ⟨e, he, _⟩ := slotDead_iff.mp
      (hinv.2 i (by rw [hf]; exact List.mem_cons_self i rest))
    exact ⟨e, he⟩

/-- C3 witness: a fresh allocator hands out slot 0 at generation 0; a
recycled slot comes back with its generation bumped to 1. -/
theorem allocate_characterization_witness :
    Allocator.new.allocate = (Index.new 0 0,
      { entries := [AllocatorEntry.new], free := [] }) ∧
    deadSlotState.allocate = (Index.new 0 1, liveGen1State) := by
  constructor
  · exact (allocate_characterization Allocator.new).1 rfl
  · exact (allocate_characterization _).2.1 0 []
      { is_live := false, generation := 0 } rfl (by decide)

/-- C4: in every reachable state no two simultaneously live handles are
equal: distinct live handles differ in slot or generation, two live handles
on the same slot coincide, and the handle returned by the next `allocate`
differs from every currently live handle. -/
theorem live_handles_pairwise_distinct (a : Allocator) (h : Reached a) :
    (∀ h1 h2 : Index, a.liveHandle h1 = true → a.liveHandle h2 = true → h1 ≠ h2 →
        h1.value ≠ h2.value ∨ h1.generation ≠ h2.generation) ∧
    (∀ h1 h2 : Index, a.liveHandle h1 = true → a.liveHandle h2 = true →
        h1.value = h2.value → h1 = h2) ∧
    (∀ h1 : Index, a.liveHandle h1 = true → (a.allocate).1 ≠ h1) := by
  refine ⟨?_, ?_, ?_⟩
  · intro h1 h2 _ _ hne
    by_contra hcon
    push_neg at hcon
    obtain ⟨hv, hg⟩ := hcon
    apply hne
    cases h1
    cases h2
    simp only at hv hg
    rw [hv, hg]
  · intro h1 h2 hl1 hl2 hv
    obtain ⟨e1, he1, _, hg1⟩ := liveHandle_iff.mp hl1
    obtain ⟨e2, he2, _, hg2⟩ := liveHandle_iff.mp hl2
    rw [hv] at he1
    rw [he2] at he1
    cases he1
    cases h1
    cases h2
    simp only at hv hg1 hg2
    rw [hv, ← hg1, ← hg2]
  · intro h1 hl1
    obtain ⟨e1, he1, helive1, hg1⟩ := liveHandle_iff.mp hl1
    have hlt1 : h1.value < a.entries.length := lt_length_of_getElem?_some he1
    have hinv := reached_freeInv h
    obtain ⟨entries, free⟩ := a
    cases free with
    | nil =>
        intro heq
        have hv := congrArg Index.value heq
        simp only [Allocator.allocate, Index.new] at hv
        simp only at hlt1
        omega
    | cons i rest =>
        have hdead : Allocator.slotDead ⟨entries, i :: rest⟩ i = true :=
          hinv.2 i (List.mem_cons_self i rest)
        obtain ⟨e', he', hd'⟩ := slotDead_iff.mp hdead
        cases hx : entries[i]? with
        | none =>
            rw [hx] at he'
            exact Option.noConfusion he'
        | some e =>
            have hred : (Allocator.allocate ⟨entries, i :: rest⟩).1 =
                Index.new i (e.generation + 1) := by
              simp [Allocator.allocate, hx]
            rw [hred]
            intro heq
            have hv : i = h1.value := congrArg Index.value heq
            rw [hx] at he'
            cases he'
            rw [← hv] at he1
            rw [hx] at he1
            cases he1
            rw [helive1] at hd'
            exact Bool.noConfusion hd'

/-- C4 witness: on a reachable state with one live handle, the next
`allocate` returns a different handle. -/
theorem live_handles_pairwise_distinct_witness :
    liveGen1State.liveHandle (Index.new 0 1) = true ∧
    (liveGen1State.allocate).1 ≠ Index.new 0 1 := by
  have h := live_handles_pairwise_distinct _ reached_liveGen1State
  exact ⟨by decide, h.2.2 (Index.new 0 1) (by decide)⟩
